import Mathlib

/-!
Shallow embedding of `marginaleffects/model_abstract.py`: the `ModelAbstract`
capability contract and the `ModelStatsmodels` concrete adapter.

Modelling conventions:
* Python floats are modelled as rationals (`Rat`); the adapter only carries
  values through, it never does float arithmetic, so only equality matters.
* numpy arrays are modelled by their shape together with their (row-major)
  entries; `np.array(None)` (the zero-dimensional object array produced on the
  `vcov=False` path) is a dedicated constructor.
* a raised Python `ValueError` is modelled as an explicit error value carrying
  the exact message string; fallible code returns `Except`.
* `warnings.warn` is modelled by returning the list of emitted warning
  messages alongside the outcome.
-/

/-- A raised Python `ValueError`, carrying its message. -/
inductive PyErr where
  | valueError (msg : String)
deriving DecidableEq

/-- An element of a Python list passed as `variables`: either a string or a
value of some other type (the code only distinguishes these two cases). -/
inductive PyItem where
  | pystr (s : String)
  | pyother
deriving DecidableEq

/-- The `variables` argument of `get_variables_names`: `None`, a string, a
dict from variable name to a perturbation specification (the specification is
opaque to this function and is modelled as an integer payload), a list, or a
value of any other type.  A dict is an association list, preserving Python's
insertion order. -/
inductive PyVar where
  | pynone
  | pstr (s : String)
  | pdict (entries : List (String × Int))
  | plist (xs : List PyItem)
  | pother
deriving DecidableEq

/-- Models Python `re.sub("\[.*\]", "", s)`.  The regex is greedy, so when the
string contains an opening bracket with a closing bracket somewhere after it,
the single match spans from the first opening bracket to the last closing
bracket, and that span is removed; otherwise the string is unchanged. -/
def subBrackets (s : String) : String :=
  let cs := s.data
  match cs.findIdx? (fun c => c = '[') with
  | none => s
  | some i =>
    match cs.reverse.findIdx? (fun c => c = ']') with
    | none => s
    | some r =>
      let j := cs.length - 1 - r
      if i < j then String.mk (cs.take i ++ cs.drop (j + 1)) else s

/-- Helper for `uniqueKeepFirst`: drop elements already seen. -/
def uniqueAux (seen : List String) : List String → List String
  | [] => []
  | x :: xs => if x ∈ seen then uniqueAux seen xs else x :: uniqueAux (x :: seen) xs

/-- One admissible behaviour of `pl.Series(l).unique().to_list()`: duplicates
removed, keeping the first occurrence of each value in its original position.
With the default `maintain_order=False`, polars does not guarantee any order
for `unique`, so properties that depend on the order of its result are
settled against `get_variables_names_with` below, which quantifies over every
function satisfying `uniqueContract`; this keep-first resolution serves only
as one concrete instance. -/
def uniqueKeepFirst (l : List String) : List String := uniqueAux [] l

/-- Message of the `ValueError` raised for a malformed `variables` argument. -/
def invalidVariablesMsg : String :=
  "`variables` must be None, a dict, string, or list of strings"

/-- Message of the `ValueError` raised when no requested name is a column. -/
def noValidColumnMsg : String :=
  "There is no valid column name in `variables`."

/-- The Python test `isinstance(variables, list) and all(isinstance(var, str)
for var in variables)`. -/
def isStrList (xs : List PyItem) : Bool :=
  xs.all (fun i => match i with | .pystr _ => true | .pyother => false)

/-- Iteration over the normalized `variables` value, as Python's
`for x in variables` iterates: over the elements of a list (all of which are
strings once the isinstance chain has passed), or over a dict's keys in
insertion order.  After normalization only `plist` and `pdict` reach this
function; the remaining cases are unreachable and yield the empty list. -/
def PyVar.iterNames : PyVar → List String
  | .plist xs => xs.filterMap (fun i => match i with | .pystr s => some s | .pyother => none)
  | .pdict d => d.map Prod.fst
  | _ => []

/-- Final stage of `get_variables_names`: partition the names the normalized
`variables` value iterates over into `good` (columns of `newdata`) and `bad`,
warn when `bad` is non-empty, raise when `good` is empty, and otherwise return
the `variables` value itself. -/
def varFinish (vars : PyVar) (newdataCols : List String) :
    List String × Except PyErr PyVar :=
  let names := vars.iterNames
  let good := names.filter (fun x => decide (x ∈ newdataCols))
  let bad := names.filter (fun x => decide (x ∉ newdataCols))
  let warns :=
    if bad.length > 0 then
      ["Variable(s) not in newdata: " ++ String.intercalate ", " bad]
    else []
  if good.length = 0 then (warns, .error (.valueError noValidColumnMsg))
  else (warns, .ok vars)

/-- `ModelStatsmodels.get_variables_names(self, variables, newdata)`.
`exogNames` stands for `self.model.model.exog_names` and `newdataCols` for
`newdata.columns`.  Returns the list of warnings emitted together with the
outcome: the returned value or the raised error. -/
def get_variables_names (vars : PyVar) (exogNames : List String)
    (newdataCols : List String) : List String × Except PyErr PyVar :=
  let vars : PyVar :=
    match vars with
    | .pynone =>
      .plist ((uniqueKeepFirst (((exogNames.map subBrackets)).filter
        (fun x => decide (x ∈ newdataCols)))).map PyItem.pystr)
    | v => v
  match vars with
  | .pstr s => varFinish (.plist [.pystr s]) newdataCols
  | .pdict d => varFinish (.pdict d) newdataCols
  | .plist xs =>
    if isStrList xs then varFinish (.plist xs) newdataCols
    else ([], .error (.valueError invalidVariablesMsg))
  | _ => ([], .error (.valueError invalidVariablesMsg))

/-- The contract polars documents for `Series.unique()` under the default
`maintain_order=False`: the result holds each distinct value of the input
exactly once — duplicate-free and with the same element set — in an
unspecified order. -/
def uniqueContract (uniq : List String → List String) : Prop :=
  ∀ l : List String, (uniq l).Nodup ∧ ∀ x : String, x ∈ uniq l ↔ x ∈ l

/-- `ModelStatsmodels.get_variables_names(self, variables, newdata)` with the
external call `pl.Series(...).unique().to_list()` abstracted as the parameter
`uniq`; the library promises only `uniqueContract` of that call's result, not
any particular order.  Instantiating `uniq := uniqueKeepFirst` recovers
`get_variables_names` exactly. -/
def get_variables_names_with (uniq : List String → List String) (vars : PyVar)
    (exogNames : List String) (newdataCols : List String) :
    List String × Except PyErr PyVar :=
  let vars : PyVar :=
    match vars with
    | .pynone =>
      .plist ((uniq (((exogNames.map subBrackets)).filter
        (fun x => decide (x ∈ newdataCols)))).map PyItem.pystr)
    | v => v
  match vars with
  | .pstr s => varFinish (.plist [.pystr s]) newdataCols
  | .pdict d => varFinish (.pdict d) newdataCols
  | .plist xs =>
    if isStrList xs then varFinish (.plist xs) newdataCols
    else ([], .error (.valueError invalidVariablesMsg))
  | _ => ([], .error (.valueError invalidVariablesMsg))

/-- A numpy array as it occurs on the covariance path: either a numeric array
with a shape and row-major entries, or `np.array(None)` — the zero-dimensional
object array obtained by wrapping Python `None` (its shape is `()`). -/
inductive NpArray where
  | numeric (shape : List Nat) (entries : List Rat)
  | objNone
deriving DecidableEq

/-- The `.shape` of a modelled numpy array. -/
def NpArray.shape : NpArray → List Nat
  | .numeric s _ => s
  | .objNone => []

/-- The `vcov` argument of `get_vcov` / `get_vcov_raw`: a bool, a string, or a
value of any other type. -/
inductive VcovArg where
  | pybool (b : Bool)
  | pystr (s : String)
  | pyother
deriving DecidableEq

/-- The statsmodels results object as seen by the covariance path: its default
covariance `cov_params()` (already converted by `np.array`) and its named
covariance attributes, as an attribute-name/value association list used to
model `hasattr` / `getattr`. -/
structure SmResults where
  covParams : NpArray
  covAttrs : List (String × NpArray)
deriving DecidableEq

/-- Message of the `ValueError` raised for a `vcov` argument of the wrong
type. -/
def vcovTypeMsg : String :=
  "`vcov` must be a boolean or a string like \"HC3\", which corresponds to an attribute of the model object such as \"vcov_HC3\"."

/-- Message of the `ValueError` raised when `get_vcov`'s shape check fails. -/
def vcovShapeMsg : String :=
  "vcov must be a square numpy array with dimensions equal to the length of self.coef"

/-- `ModelStatsmodels.get_vcov_raw(self, vcov=True)`.  The trailing
`V = np.array(V)` is folded in: the attribute values and `cov_params()` are
already arrays, and on the `vcov=False` path `np.array(None)` produces the
zero-dimensional object array `NpArray.objNone`. -/
def get_vcov_raw (model : SmResults) (vcov : VcovArg) : Except PyErr NpArray :=
  match vcov with
  | .pybool b =>
    if b then .ok model.covParams
    else .ok .objNone
  | .pystr s =>
    let lab := "cov_" ++ s
    match model.covAttrs.lookup lab with
    | some v => .ok v
    | none => .error (.valueError ("The model object has no " ++ lab ++ " attribute."))
  | .pyother => .error (.valueError vcovTypeMsg)

/-- `ModelAbstract.get_vcov(self, vcov=True)`.  `coefLen` stands for
`len(self.coef)`.  The `isinstance(vcov, np.ndarray)` test always passes here
because `get_vcov_raw` ends with `np.array(V)`, so only the shape check
remains. -/
def get_vcov (model : SmResults) (coefLen : Nat) (vcov : VcovArg) :
    Except PyErr NpArray :=
  match get_vcov_raw model vcov with
  | .error e => .error e
  | .ok v =>
    if v.shape = [coefLen, coefLen] then .ok v
    else .error (.valueError vcovShapeMsg)

/-- A Python value as returned by the four data-producing getters validated at
construction time: a numpy array (shape and row-major entries), a polars
DataFrame (modelled by its column names), a string, `None`, or a value of any
other type. -/
inductive PyObj where
  | ndarray (shape : List Nat) (entries : List Rat)
  | polarsDF (columns : List String)
  | pystr (s : String)
  | pynone
  | pyother
deriving DecidableEq

/-- The `isinstance(x, np.ndarray)` test. -/
def PyObj.isNdarray : PyObj → Bool
  | .ndarray _ _ => true
  | _ => false

/-- What each getter of a concrete adapter returns, before validation:
`get_coef()`, `get_modeldata()`, `get_response_name()`, `get_formula()`. -/
structure RawModel where
  coefVal : PyObj
  modeldataVal : PyObj
  responseNameVal : PyObj
  formulaVal : PyObj
deriving DecidableEq

/-- A fully constructed adapter: the fields bound by the four `validate_*`
methods of `ModelAbstract.__init__`. -/
structure Adapter where
  coef : List Nat × List Rat
  modeldataCols : List String
  responseName : String
  formula : String
deriving DecidableEq

/-- Message of the `ValueError` raised by `validate_coef`. -/
def coefMsg : String := "coef must be a numpy array"

/-- Message of the `ValueError` raised by `validate_modeldata`. -/
def modeldataMsg : String := "modeldata must be a Polars DataFrame"

/-- Message of the `ValueError` raised by `validate_response_name`. -/
def responseNameMsg : String := "response_name must be a string"

/-- Message of the `ValueError` raised by `validate_formula`. -/
def formulaMsg : String := "formula must be a string"

/-- `ModelAbstract.validate_coef`: `isinstance(coef, np.ndarray)` is the only
check performed — neither the dimensionality nor the dtype is inspected. -/
def validate_coef : PyObj → Except PyErr (List Nat × List Rat)
  | .ndarray sh es => .ok (sh, es)
  | _ => .error (.valueError coefMsg)

/-- `ModelAbstract.validate_modeldata`: `isinstance(modeldata, pl.DataFrame)`. -/
def validate_modeldata : PyObj → Except PyErr (List String)
  | .polarsDF cols => .ok cols
  | _ => .error (.valueError modeldataMsg)

/-- `ModelAbstract.validate_response_name`: `isinstance(response_name, str)`. -/
def validate_response_name : PyObj → Except PyErr String
  | .pystr s => .ok s
  | _ => .error (.valueError responseNameMsg)

/-- `ModelAbstract.validate_formula`: `isinstance(formula, str)`. -/
def validate_formula : PyObj → Except PyErr String
  | .pystr s => .ok s
  | _ => .error (.valueError formulaMsg)

/-- `ModelAbstract.__init__`: runs the four validations in order, stopping at
the first raised error; on success all validated fields are bound at once. -/
def adapter_init (m : RawModel) : Except PyErr Adapter :=
  match validate_coef m.coefVal with
  | .error e => .error e
  | .ok coef =>
    match validate_modeldata m.modeldataVal with
    | .error e => .error e
    | .ok md =>
      match validate_response_name m.responseNameVal with
      | .error e => .error e
      | .ok rn =>
        match validate_formula m.formulaVal with
        | .error e => .error e
        | .ok f =>
          .ok { coef := coef, modeldataCols := md, responseName := rn, formula := f }

/-- The raw result of the backend call `self.model.model.predict(params,
exog)`, classified by rank as the code does via `p.ndim`: a rank-1 vector, a
rank-2 matrix given by its column count and its rows, or an array of any other
rank. -/
inductive PredOut where
  | dim1 (vals : List Rat)
  | dim2 (ncol : Nat) (rows : List (List Rat))
  | dimOther
deriving DecidableEq

/-- A polars column dtype, as far as this code distinguishes them. -/
inductive PlDType where
  | int32
  | int64
  | float64
deriving DecidableEq

/-- One row of the table returned by `get_predict`: `rowid`, the optional
`group` label (present only for rank-2 output), and `estimate`. -/
structure PredRow where
  rowid : Int
  group : Option String
  estimate : Rat
deriving DecidableEq

/-- The table returned by `get_predict`, with the dtype of its `rowid`
column. -/
structure PredTable where
  rowidDtype : PlDType
  rows : List PredRow
deriving DecidableEq

/-- `pl.DataFrame(p)` on an n-by-k numpy array: k Float64 columns named
`column_0` … `column_(k-1)`, column j holding the j-th entry of each row of
the array, in row order. -/
def dfOfNdarray (ncol : Nat) (rows : List (List Rat)) : List (String × List Rat) :=
  (List.range ncol).map (fun j => ("column_" ++ toString j, rows.map (fun r => r.getD j 0)))

/-- `df.rename(mapping)`: every column name is looked up in the mapping;
unmapped names are kept. -/
def renameCols (mapping : List (String × String)) (df : List (String × List Rat)) :
    List (String × List Rat) :=
  df.map (fun c => ((mapping.lookup c.1).getD c.1, c.2))

/-- `df.melt(id_vars="rowid", variable_name="group", value_name="estimate")`
after `rowid` has been added: one block of output rows per value column, in
column order; within a block, the id column pairs with that column's values in
row order, and `group` is the column's name. -/
def meltRowid (rowid : List Int) (df : List (String × List Rat)) : List PredRow :=
  df.flatMap (fun c =>
    (rowid.zip c.2).map (fun pr => { rowid := pr.1, group := some c.1, estimate := pr.2 }))

/-- Smallest value of the polars `Int32` dtype. -/
def int32Min : Int := -(2 ^ 31)

/-- Largest value of the polars `Int32` dtype. -/
def int32Max : Int := 2 ^ 31 - 1

/-- `p.with_columns(pl.col("rowid").cast(pl.Int32))`: a strict cast, raising
when a value does not fit in a 32-bit signed integer. -/
def castRowidInt32 (t : PredTable) : Except PyErr PredTable :=
  if t.rows.all (fun r => decide (int32Min ≤ r.rowid ∧ r.rowid ≤ int32Max)) then
    .ok { t with rowidDtype := .int32 }
  else .error (.valueError "conversion from int64 to int32 failed for column rowid")

/-- Message of the `ValueError` raised by `get_predict` on a prediction array
of unsupported rank. -/
def predictRankMsg : String :=
  "The `predict()` method must return an array with 1 or 2 dimensions."

/-- The body of `ModelStatsmodels.get_predict` from the point where the raw
backend prediction `p` is in hand, before the final `rowid` cast.
`newdataNrows` stands for `newdata.shape[0]`.  In the rank-1 branch
`pl.DataFrame` raises when the `rowid` and `estimate` columns have different
lengths; the inferred dtype of `range(n)` is Int64.  In the rank-2 branch the
columns of `pl.DataFrame(p)` are renamed from `column_i` to `str(i)`, a `rowid`
Int32 column `range(p.shape[0])` is appended, and the frame is melted. -/
def predictFrame (p : PredOut) (newdataNrows : Nat) : Except PyErr PredTable :=
  match p with
  | .dim1 vals =>
    if vals.length = newdataNrows then
      .ok { rowidDtype := .int64,
            rows := (((List.range newdataNrows).map Int.ofNat).zip vals).map
              (fun pr => { rowid := pr.1, group := none, estimate := pr.2 }) }
    else .error (.valueError "could not create a DataFrame from series of different lengths")
  | .dim2 ncol rows =>
    let colnames := (List.range ncol).map (fun i => ("column_" ++ toString i, toString i))
    let df := renameCols colnames (dfOfNdarray ncol rows)
    .ok { rowidDtype := .int32,
          rows := meltRowid ((List.range rows.length).map Int.ofNat) df }
  | .dimOther => .error (.valueError predictRankMsg)

/-- `ModelStatsmodels.get_predict(self, params, newdata)` from the point where
the raw backend prediction `p` is in hand: build the frame for the rank of
`p`, then cast the `rowid` column to Int32. -/
def get_predict (p : PredOut) (newdataNrows : Nat) : Except PyErr PredTable :=
  match predictFrame p newdataNrows with
  | .error e => .error e
  | .ok t => castRowidInt32 t

/-- The entry of a rank-2 prediction at row `i`, column `j` (0 outside the
array, as with `List.getD`). -/
def entryAt (rows : List (List Rat)) (i j : Nat) : Rat :=
  (rows.getD i []).getD j 0

/-! ### Decimal representation of naturals

`str(i)` in Python and `toString i` in this embedding both produce the
decimal representation; the lemmas below establish that it is injective,
which the melt/rename reasoning needs. -/

theorem toDigitsCore_append (b : Nat) :
    ∀ (fuel n : Nat) (ds : List Char),
      Nat.toDigitsCore b fuel n ds = Nat.toDigitsCore b fuel n [] ++ ds := by
  intro fuel
  induction fuel with
  | zero => intro n ds; simp [Nat.toDigitsCore]
  | succ f ih =>
    intro n ds
    simp only [Nat.toDigitsCore]
    by_cases h : n / b = 0
    · simp [h]
    · simp only [h, if_neg, ite_false]
      rw [ih (n / b) (Nat.digitChar (n % b) :: ds), ih (n / b) [Nat.digitChar (n % b)]]
      simp

theorem toDigitsCore_fuel :
    ∀ (n f₁ f₂ : Nat), n < f₁ → n < f₂ → ∀ ds : List Char,
      Nat.toDigitsCore 10 f₁ n ds = Nat.toDigitsCore 10 f₂ n ds := by
  intro n
  induction n using Nat.strong_induction_on with
  | _ n ih =>
    intro f₁ f₂ h₁ h₂ ds
    match f₁, f₂, h₁, h₂ with
    | f₁ + 1, f₂ + 1, h₁, h₂ =>
      simp only [Nat.toDigitsCore]
      by_cases h : n / 10 = 0
      · simp [h]
      · simp only [h, ite_false]
        have hn : n ≠ 0 := by intro e; subst e; simp at h
        have hlt : n / 10 < n := Nat.div_lt_self (Nat.pos_of_ne_zero hn) (by norm_num)
        exact ih (n / 10) hlt f₁ f₂ (by omega) (by omega) _

theorem toDigits_base (n : Nat) (h : n < 10) : Nat.toDigits 10 n = [Nat.digitChar n] := by
  have h0 : n / 10 = 0 := Nat.div_eq_of_lt h
  simp [Nat.toDigits, Nat.toDigitsCore, h0, Nat.mod_eq_of_lt h]

theorem toDigits_step (n : Nat) (h : 10 ≤ n) :
    Nat.toDigits 10 n = Nat.toDigits 10 (n / 10) ++ [Nat.digitChar (n % 10)] := by
  have hd : ¬ n / 10 = 0 := by omega
  simp only [Nat.toDigits, Nat.toDigitsCore, hd, ite_false]
  rw [toDigitsCore_append 10 n (n / 10) [Nat.digitChar (n % 10)]]
  congr 1
  exact toDigitsCore_fuel (n / 10) n (n / 10 + 1) (by omega) (by omega) []

theorem toDigits_ne_nil (n : Nat) : Nat.toDigits 10 n ≠ [] := by
  by_cases h : n < 10
  · rw [toDigits_base n h]; simp
  · rw [toDigits_step n (by omega)]; simp

theorem digitChar_inj_lt : ∀ a < 10, ∀ b < 10,
    Nat.digitChar a = Nat.digitChar b → a = b := by decide

theorem toDigits_injective : ∀ m n : Nat, Nat.toDigits 10 m = Nat.toDigits 10 n → m = n := by
  intro m
  induction m using Nat.strong_induction_on with
  | _ m ih =>
    intro n h
    by_cases hm : m < 10 <;> by_cases hn : n < 10
    · rw [toDigits_base m hm, toDigits_base n hn] at h
      exact digitChar_inj_lt m hm n hn (List.cons.inj h).1
    · rw [toDigits_base m hm, toDigits_step n (by omega)] at h
      obtain ⟨c, l, hcl⟩ := List.exists_cons_of_ne_nil (toDigits_ne_nil (n / 10))
      rw [hcl, List.cons_append] at h
      have := (List.cons.inj h).2
      simp at this
    · rw [toDigits_step m (by omega), toDigits_base n hn] at h
      obtain ⟨c, l, hcl⟩ := List.exists_cons_of_ne_nil (toDigits_ne_nil (m / 10))
      rw [hcl, List.cons_append] at h
      have := (List.cons.inj h).2
      simp at this
    · rw [toDigits_step m (by omega), toDigits_step n (by omega)] at h
      obtain ⟨h₁, h₂⟩ := List.append_inj' h rfl
      have e₁ : m / 10 = n / 10 :=
        ih (m / 10) (Nat.div_lt_self (by omega) (by norm_num)) (n / 10) h₁
      have e₂ : m % 10 = n % 10 :=
        digitChar_inj_lt _ (Nat.mod_lt _ (by norm_num)) _ (Nat.mod_lt _ (by norm_num))
          (List.cons.inj h₂).1
      omega

theorem natToString_injective {m n : Nat} (h : toString m = toString n) : m = n :=
  toDigits_injective m n (congrArg String.data h)

theorem string_append_data (s t : String) : (s ++ t).data = s.data ++ t.data := by
  cases s; cases t; rfl

theorem string_append_left_cancel {s a b : String} (h : s ++ a = s ++ b) : a = b := by
  have h' := congrArg String.data h
  rw [string_append_data, string_append_data] at h'
  have h'' := List.append_cancel_left h'
  cases a; cases b; exact congrArg String.mk h''

theorem columnName_injective {i j : Nat}
    (h : "column_" ++ toString i = "column_" ++ toString j) : i = j :=
  natToString_injective (string_append_left_cancel h)

/-! ### Helper lemmas about the variable-name path -/

theorem iterNames_plist_map (ns : List String) :
    PyVar.iterNames (.plist (ns.map PyItem.pystr)) = ns := by
  induction ns with
  | nil => rfl
  | cons a l ih =>
    simp only [PyVar.iterNames, List.map_cons, List.filterMap_cons] at ih ⊢
    exact congrArg (a :: ·) ih

theorem isStrList_map (ns : List String) : isStrList (ns.map PyItem.pystr) = true := by
  induction ns with
  | nil => rfl
  | cons a l ih =>
    simp only [isStrList, List.map_cons, List.all_cons] at ih ⊢
    simp [ih]

theorem uniqueAux_cons_mem {a : String} {seen : List String} (h : a ∈ seen)
    (l : List String) : uniqueAux seen (a :: l) = uniqueAux seen l := by
  simp [uniqueAux, h]

theorem uniqueAux_cons_not_mem {a : String} {seen : List String} (h : a ∉ seen)
    (l : List String) : uniqueAux seen (a :: l) = a :: uniqueAux (a :: seen) l := by
  simp [uniqueAux, h]

theorem mem_uniqueAux {x : String} :
    ∀ {l seen : List String}, x ∈ uniqueAux seen l → x ∈ l := by
  intro l
  induction l with
  | nil => intro seen h; simp [uniqueAux] at h
  | cons a l ih =>
    intro seen h
    by_cases ha : a ∈ seen
    · rw [uniqueAux_cons_mem ha] at h
      exact List.mem_cons_of_mem a (ih h)
    · rw [uniqueAux_cons_not_mem ha] at h
      rcases List.mem_cons.mp h with h | h
      · simp [h]
      · exact List.mem_cons_of_mem a (ih h)

theorem filter_uniqueAux (p : String → Bool) :
    ∀ (l seen : List String),
      (uniqueAux seen l).filter p = uniqueAux (seen.filter p) (l.filter p) := by
  intro l
  induction l with
  | nil => intro seen; rfl
  | cons a l ih =>
    intro seen
    by_cases hp : p a = true
    · rw [List.filter_cons_of_pos hp]
      by_cases ha : a ∈ seen
      · rw [uniqueAux_cons_mem ha, uniqueAux_cons_mem (List.mem_filter.mpr ⟨ha, hp⟩),
          ih seen]
      · have ha' : a ∉ seen.filter p := fun hmem => ha (List.mem_filter.mp hmem).1
        rw [uniqueAux_cons_not_mem ha, uniqueAux_cons_not_mem ha',
          List.filter_cons_of_pos hp, ih (a :: seen), List.filter_cons_of_pos hp]
    · have hp' : p a = false := by simpa using hp
      rw [List.filter_cons_of_neg (by simp [hp'])]
      by_cases ha : a ∈ seen
      · rw [uniqueAux_cons_mem ha, ih seen]
      · rw [uniqueAux_cons_not_mem ha, List.filter_cons_of_neg (by simp [hp']),
          ih (a :: seen), List.filter_cons_of_neg (by simp [hp'])]

theorem filter_uniqueKeepFirst (p : String → Bool) (l : List String) :
    (uniqueKeepFirst l).filter p = uniqueKeepFirst (l.filter p) :=
  filter_uniqueAux p l []

theorem uniqueKeepFirst_ne_nil {l : List String} (h : l ≠ []) :
    uniqueKeepFirst l ≠ [] := by
  cases l with
  | nil => exact absurd rfl h
  | cons a l => simp [uniqueKeepFirst, uniqueAux]

theorem mem_uniqueAux_iff {x : String} :
    ∀ {l seen : List String}, x ∈ uniqueAux seen l ↔ (x ∈ l ∧ x ∉ seen) := by
  intro l
  induction l with
  | nil => intro seen; simp [uniqueAux]
  | cons a l ih =>
    intro seen
    by_cases ha : a ∈ seen
    · rw [uniqueAux_cons_mem ha, ih]
      constructor
      · rintro ⟨h1, h2⟩
        exact ⟨List.mem_cons_of_mem a h1, h2⟩
      · rintro ⟨h1, h2⟩
        rcases List.mem_cons.mp h1 with rfl | h1
        · exact absurd ha h2
        · exact ⟨h1, h2⟩
    · rw [uniqueAux_cons_not_mem ha]
      constructor
      · intro hx
        rcases List.mem_cons.mp hx with rfl | hx
        · exact ⟨List.mem_cons_self x l, ha⟩
        · have hm := ih.mp hx
          exact ⟨List.mem_cons_of_mem a hm.1,
            fun hs => hm.2 (List.mem_cons_of_mem a hs)⟩
      · rintro ⟨h1, h2⟩
        rcases List.mem_cons.mp h1 with rfl | h1
        · exact List.mem_cons_self x _
        · by_cases hxa : x = a
          · subst hxa
            exact List.mem_cons_self x _
          · refine List.mem_cons_of_mem a (ih.mpr ⟨h1, ?_⟩)
            intro hs
            rcases List.mem_cons.mp hs with h | h
            · exact hxa h
            · exact h2 h

theorem nodup_uniqueAux : ∀ (l seen : List String), (uniqueAux seen l).Nodup := by
  intro l
  induction l with
  | nil => intro seen; simp [uniqueAux]
  | cons a l ih =>
    intro seen
    by_cases ha : a ∈ seen
    · rw [uniqueAux_cons_mem ha]
      exact ih seen
    · rw [uniqueAux_cons_not_mem ha, List.nodup_cons]
      refine ⟨?_, ih (a :: seen)⟩
      intro hmem
      exact (mem_uniqueAux_iff.mp hmem).2 (List.mem_cons_self a seen)

theorem uniqueKeepFirst_contract : uniqueContract uniqueKeepFirst := by
  intro l
  refine ⟨nodup_uniqueAux l [], fun x => ?_⟩
  show x ∈ uniqueAux [] l ↔ x ∈ l
  rw [mem_uniqueAux_iff]
  simp

theorem uniqueReversed_contract :
    uniqueContract (fun l => (uniqueKeepFirst l).reverse) := by
  intro l
  constructor
  · exact List.nodup_reverse.mpr (nodup_uniqueAux l [])
  · intro x
    rw [List.mem_reverse]
    exact (uniqueKeepFirst_contract l).2 x

theorem get_variables_names_eq_with :
    get_variables_names = get_variables_names_with uniqueKeepFirst := rfl

/-! ### Behaviour of the final stage of get_variables_names -/

theorem varFinish_mixed (v : PyVar) (cols : List String)
    (hgood : ∃ x ∈ v.iterNames, x ∈ cols) (hbad : ∃ x ∈ v.iterNames, x ∉ cols) :
    varFinish v cols =
      (["Variable(s) not in newdata: " ++ String.intercalate ", "
          (v.iterNames.filter (fun x => decide (x ∉ cols)))], .ok v) := by
  obtain ⟨x, hx, hxc⟩ := hgood
  obtain ⟨y, hy, hyc⟩ := hbad
  have hg : ¬ (v.iterNames.filter (fun x => decide (x ∈ cols))).length = 0 := by
    rw [List.length_eq_zero, List.filter_eq_nil_iff]
    push_neg
    exact ⟨x, hx, by simpa using hxc⟩
  have hb : (v.iterNames.filter (fun x => decide (x ∉ cols))).length > 0 := by
    rw [gt_iff_lt, List.length_pos]
    intro hnil
    rw [List.filter_eq_nil_iff] at hnil
    exact (by simpa using hnil y hy : ¬ y ∉ cols) hyc
  simp only [varFinish]
  rw [if_neg hg, if_pos hb]

theorem varFinish_all_absent (v : PyVar) (cols : List String)
    (hbad : ∀ x ∈ v.iterNames, x ∉ cols) :
    (varFinish v cols).2 = .error (.valueError noValidColumnMsg) := by
  have hg : (v.iterNames.filter (fun x => decide (x ∈ cols))).length = 0 := by
    rw [List.length_eq_zero, List.filter_eq_nil_iff]
    intro a ha
    simpa using hbad a ha
  simp only [varFinish]
  rw [if_pos hg]

theorem varFinish_all_present (v : PyVar) (cols : List String)
    (hall : ∀ x ∈ v.iterNames, x ∈ cols) (hne : v.iterNames ≠ []) :
    varFinish v cols = ([], .ok v) := by
  have hfil : v.iterNames.filter (fun x => decide (x ∈ cols)) = v.iterNames :=
    List.filter_eq_self.mpr (fun a ha => by simpa using hall a ha)
  have hg : ¬ (v.iterNames.filter (fun x => decide (x ∈ cols))).length = 0 := by
    rw [hfil, List.length_eq_zero]
    exact hne
  have hb : ¬ (v.iterNames.filter (fun x => decide (x ∉ cols))).length > 0 := by
    have hnil : v.iterNames.filter (fun x => decide (x ∉ cols)) = [] :=
      List.filter_eq_nil_iff.mpr (fun a ha => by
        simp only [decide_eq_true_eq]
        exact fun hcon => hcon (hall a ha))
    rw [hnil]
    simp
  simp only [varFinish]
  rw [if_neg hg, if_neg hb]

/-! ### Case unfoldings of get_variables_names -/

theorem gvn_pstr (s : String) (exog cols : List String) :
    get_variables_names (.pstr s) exog cols = varFinish (.plist [.pystr s]) cols := rfl

theorem gvn_pdict (d : List (String × Int)) (exog cols : List String) :
    get_variables_names (.pdict d) exog cols = varFinish (.pdict d) cols := rfl

theorem gvn_plist_str (xs : List String) (exog cols : List String) :
    get_variables_names (.plist (xs.map PyItem.pystr)) exog cols =
      varFinish (.plist (xs.map PyItem.pystr)) cols := by
  simp [get_variables_names, isStrList_map]

theorem gvn_with_pynone (uniq : List String → List String) (exog cols : List String) :
    get_variables_names_with uniq .pynone exog cols =
      varFinish (.plist ((uniq ((exog.map subBrackets).filter
        (fun x => decide (x ∈ cols)))).map PyItem.pystr)) cols := by
  simp [get_variables_names_with, isStrList_map]

/-! ### Helper lemmas about the prediction path -/

theorem lookup_column_names {j ncol : Nat} (hj : j < ncol) :
    ((List.range ncol).map (fun i => ("column_" ++ toString i, toString i))).lookup
      ("column_" ++ toString j) = some (toString j) := by
  have main : ∀ l : List Nat, j ∈ l →
      ((l.map (fun i => ("column_" ++ toString i, toString i))).lookup
        ("column_" ++ toString j)) = some (toString j) := by
    intro l
    induction l with
    | nil => intro h; simp at h
    | cons a l ih =>
      intro hmem
      simp only [List.map_cons, List.lookup_cons]
      by_cases h : ("column_" ++ toString j) = ("column_" ++ toString a)
      · have hja : j = a := columnName_injective h
        subst hja
        simp
      · have hne : (("column_" ++ toString j) == ("column_" ++ toString a)) = false := by
          simpa using h
        rw [hne]
        exact ih (by
          rcases List.mem_cons.mp hmem with rfl | hmem
          · exact absurd rfl h
          · exact hmem)
  exact main (List.range ncol) (List.mem_range.mpr hj)

theorem renamed_df_eq (ncol : Nat) (rows : List (List Rat)) :
    renameCols ((List.range ncol).map (fun i => ("column_" ++ toString i, toString i)))
        (dfOfNdarray ncol rows) =
      (List.range ncol).map (fun j => (toString j, rows.map (fun r => r.getD j 0))) := by
  unfold renameCols dfOfNdarray
  rw [List.map_map]
  apply List.map_congr_left
  intro j hj
  simp only [Function.comp_apply]
  rw [lookup_column_names (List.mem_range.mp hj)]
  rfl

theorem meltBlock_eq (rows : List (List Rat)) (j : Nat) :
    (((List.range rows.length).map Int.ofNat).zip (rows.map (fun r => r.getD j 0))).map
        (fun pr => ({ rowid := pr.1, group := some (toString j), estimate := pr.2 } : PredRow)) =
      (List.range rows.length).map (fun (i : Nat) =>
        ({ rowid := (i : Int), group := some (toString j),
           estimate := entryAt rows i j } : PredRow)) := by
  apply List.ext_getElem
  · simp [List.length_zip]
  · intro i h1 h2
    have hi : i < rows.length := by simpa using h2
    simp only [List.getElem_map, List.getElem_zip, List.getElem_range, entryAt]
    rw [List.getD_eq_getElem rows [] hi]
    rfl

theorem predictFrame_dim2 (ncol : Nat) (rows : List (List Rat)) (nd : Nat) :
    predictFrame (.dim2 ncol rows) nd =
      .ok { rowidDtype := .int32,
            rows := (List.range ncol).flatMap (fun (j : Nat) =>
              (List.range rows.length).map (fun (i : Nat) =>
                ({ rowid := (i : Int), group := some (toString j),
                   estimate := entryAt rows i j } : PredRow))) } := by
  simp only [predictFrame]
  rw [renamed_df_eq]
  unfold meltRowid
  rw [List.flatMap_map]
  have hfun : (fun j => (((List.range rows.length).map Int.ofNat).zip
        (rows.map (fun r => r.getD j 0))).map
          (fun pr => ({ rowid := pr.1, group := some (toString j),
                        estimate := pr.2 } : PredRow))) =
      (fun (j : Nat) => (List.range rows.length).map (fun (i : Nat) =>
        ({ rowid := (i : Int), group := some (toString j),
           estimate := entryAt rows i j } : PredRow))) :=
    funext (fun j => meltBlock_eq rows j)
  rw [hfun]

theorem dim1_rows_eq (vals : List Rat) :
    ((((List.range vals.length).map Int.ofNat).zip vals).map
      (fun pr => ({ rowid := pr.1, group := none, estimate := pr.2 } : PredRow))) =
    (List.range vals.length).map (fun (i : Nat) =>
      ({ rowid := (i : Int), group := none, estimate := vals.getD i 0 } : PredRow)) := by
  apply List.ext_getElem
  · simp [List.length_zip]
  · intro i h1 h2
    have hi : i < vals.length := by simpa using h2
    simp only [List.getElem_map, List.getElem_zip, List.getElem_range]
    rw [List.getD_eq_getElem vals 0 hi]
    rfl

theorem predictFrame_dim1 (vals : List Rat) :
    predictFrame (.dim1 vals) vals.length =
      .ok { rowidDtype := .int64,
            rows := (List.range vals.length).map (fun (i : Nat) =>
              ({ rowid := (i : Int), group := none,
                 estimate := vals.getD i 0 } : PredRow)) } := by
  simp only [predictFrame, if_true]
  rw [dim1_rows_eq]

theorem castRowidInt32_ok {t : PredTable} {n : Nat} (hn : n ≤ 2 ^ 31)
    (h : ∀ r ∈ t.rows, ∃ i : Nat, i < n ∧ r.rowid = (i : Int)) :
    castRowidInt32 t = .ok { t with rowidDtype := .int32 } := by
  have hall : t.rows.all (fun r => decide (int32Min ≤ r.rowid ∧ r.rowid ≤ int32Max)) = true := by
    rw [List.all_eq_true]
    intro r hr
    obtain ⟨i, hi, hri⟩ := h r hr
    rw [decide_eq_true_eq, hri]
    unfold int32Min int32Max
    omega
  unfold castRowidInt32
  rw [if_pos hall]

theorem get_predict_dim2 (ncol : Nat) (rows : List (List Rat)) (nd : Nat)
    (hn : rows.length ≤ 2 ^ 31) :
    get_predict (.dim2 ncol rows) nd =
      .ok { rowidDtype := .int32,
            rows := (List.range ncol).flatMap (fun (j : Nat) =>
              (List.range rows.length).map (fun (i : Nat) =>
                ({ rowid := (i : Int), group := some (toString j),
                   estimate := entryAt rows i j } : PredRow))) } := by
  unfold get_predict
  rw [predictFrame_dim2 ncol rows nd]
  apply castRowidInt32_ok hn
  intro r hr
  simp only [List.mem_flatMap, List.mem_map, List.mem_range] at hr
  obtain ⟨j, hj, i, hi, hr⟩ := hr
  exact ⟨i, hi, by rw [← hr]⟩

theorem get_predict_dim1 (vals : List Rat) (hn : vals.length ≤ 2 ^ 31) :
    get_predict (.dim1 vals) vals.length =
      .ok { rowidDtype := .int32,
            rows := (List.range vals.length).map (fun (i : Nat) =>
              ({ rowid := (i : Int), group := none,
                 estimate := vals.getD i 0 } : PredRow)) } := by
  unfold get_predict
  rw [predictFrame_dim1 vals]
  apply castRowidInt32_ok hn
  intro r hr
  simp only [List.mem_map, List.mem_range] at hr
  obtain ⟨i, hi, hr⟩ := hr
  exact ⟨i, hi, by rw [← hr]⟩

/-- Whether a `variables` value is a Python list of strings. -/
def PyVar.isStringList : PyVar → Bool
  | .plist xs => isStrList xs
  | _ => false

/-- C2: the specification says the covariance operation with selector `false`
returns a null/absent result and does not raise.  In the code,
`get_vcov_raw(False)` does produce the absent value (`None`, which the
trailing `np.array` call wraps into a zero-dimensional object array), but
`get_vcov` then unconditionally applies its shape validation, which the
zero-dimensional array fails, so the call raises the shape `ValueError`
instead of returning an absent result. -/
theorem c2_vcov_false_raises :
    get_vcov_raw { covParams := .numeric [2, 2] [1, 0, 0, 1], covAttrs := [] }
        (.pybool false) = .ok .objNone ∧
    get_vcov { covParams := .numeric [2, 2] [1, 0, 0, 1], covAttrs := [] } 2
        (.pybool false) = .error (.valueError vcovShapeMsg) :=
  ⟨rfl, rfl⟩

/-- C7: for every string selector `s` such that the underlying model exposes
no `cov_<s>` accessor, `get_vcov` raises the `ValueError` whose message names
the missing accessor `cov_<s>` (and hence the selector string itself), and no
matrix is returned. -/
theorem c7_unknown_estimator (model : SmResults) (coefLen : Nat) (s : String)
    (h : model.covAttrs.lookup ("cov_" ++ s) = none) :
    get_vcov model coefLen (.pystr s) =
      .error (.valueError ("The model object has no " ++ ("cov_" ++ s) ++ " attribute.")) := by
  simp only [get_vcov, get_vcov_raw]
  rw [h]

/-- Witness for C7 at the spec's example: selector "HC3" on a model lacking
the `cov_HC3` accessor. -/
theorem c7_witness :
    (({ covParams := .numeric [2, 2] [1, 0, 0, 1], covAttrs := [] } :
        SmResults).covAttrs.lookup ("cov_" ++ "HC3") = none) ∧
    get_vcov { covParams := .numeric [2, 2] [1, 0, 0, 1], covAttrs := [] } 2
        (.pystr "HC3") =
      .error (.valueError ("The model object has no " ++ ("cov_" ++ "HC3") ++ " attribute.")) :=
  ⟨rfl, c7_unknown_estimator _ 2 "HC3" rfl⟩

/-- C8 counterexample: `validate_coef` only tests `isinstance(coef,
np.ndarray)`, so a two-dimensional array — which is not a one-dimensional
numeric array — passes validation and construction succeeds; moreover the
message raised for a non-array is "coef must be a numpy array", not the
claimed "coef must be a numeric array". -/
theorem c8_counterexample :
    adapter_init { coefVal := .ndarray [2, 2] [1, 0, 0, 1],
                   modeldataVal := .polarsDF ["x", "y"],
                   responseNameVal := .pystr "y",
                   formulaVal := .pystr "y ~ x" } =
      .ok { coef := ([2, 2], [1, 0, 0, 1]), modeldataCols := ["x", "y"],
            responseName := "y", formula := "y ~ x" } ∧
    ([2, 2] : List Nat).length ≠ 1 ∧
    coefMsg ≠ "coef must be a numeric array" :=
  ⟨rfl, by decide, by decide⟩

/-- C8 amended: when `coefficients()` returns a value that is not an array at
all (the only property `validate_coef` checks), construction fails with the
`ValueError` "coef must be a numpy array"; the outcome does not depend on the
model-data, response-name, or formula values, so those validations never run,
and no adapter value is produced. -/
theorem c8_coef_validation (c md rn f : PyObj) (hc : c.isNdarray = false) :
    adapter_init { coefVal := c, modeldataVal := md, responseNameVal := rn,
                   formulaVal := f } = .error (.valueError coefMsg) := by
  cases c with
  | ndarray sh es => simp [PyObj.isNdarray] at hc
  | polarsDF cols => rfl
  | pystr s => rfl
  | pynone => rfl
  | pyother => rfl

/-- Witness for C8's amended claim: a `None` coefficient value together with
otherwise-valid getters fails construction with the coef message. -/
theorem c8_witness :
    (PyObj.pynone.isNdarray = false) ∧
    adapter_init { coefVal := .pynone, modeldataVal := .polarsDF ["x"],
                   responseNameVal := .pystr "y", formulaVal := .pystr "y ~ x" } =
      .error (.valueError coefMsg) :=
  ⟨rfl, c8_coef_validation _ _ _ _ rfl⟩

/-- C1 counterexample: with requested list ["x1", "zz"] and columns
["x1", "y"], the function warns about "zz" but returns the full requested
list, "zz" included — not only the present names as the claim states. -/
theorem c1_counterexample :
    get_variables_names (.plist [.pystr "x1", .pystr "zz"]) [] ["x1", "y"] =
      (["Variable(s) not in newdata: zz"],
        .ok (.plist [.pystr "x1", .pystr "zz"])) ∧
    PyVar.plist [.pystr "x1", .pystr "zz"] ≠ .plist [.pystr "x1"] :=
  ⟨rfl, by decide⟩

/-- C1 amended: for a requested specification (list of strings or mapping)
with at least one present and one absent name, `get_variables_names` emits the
warning listing the absent names and returns the requested selection
unchanged — the full list including absent names, in original order, or the
mapping itself; when no requested name is present (also for a single absent
string) it raises the `ValueError` "There is no valid column name in
`variables`." instead of returning. -/
theorem c1_partial_selection (xs cols exog : List String)
    (d : List (String × Int)) (s : String) :
    ((∃ x ∈ xs, x ∈ cols) → (∃ x ∈ xs, x ∉ cols) →
      get_variables_names (.plist (xs.map .pystr)) exog cols =
        (["Variable(s) not in newdata: " ++ String.intercalate ", "
            (xs.filter (fun x => decide (x ∉ cols)))],
          .ok (.plist (xs.map .pystr)))) ∧
    ((∃ p ∈ d, p.1 ∈ cols) → (∃ p ∈ d, p.1 ∉ cols) →
      get_variables_names (.pdict d) exog cols =
        (["Variable(s) not in newdata: " ++ String.intercalate ", "
            ((d.map Prod.fst).filter (fun x => decide (x ∉ cols)))],
          .ok (.pdict d))) ∧
    ((∀ x ∈ xs, x ∉ cols) →
      (get_variables_names (.plist (xs.map .pystr)) exog cols).2 =
        .error (.valueError noValidColumnMsg)) ∧
    (s ∉ cols →
      (get_variables_names (.pstr s) exog cols).2 =
        .error (.valueError noValidColumnMsg)) := by
  refine ⟨?_, ?_, ?_, ?_⟩
  · intro hg hb
    rw [gvn_plist_str,
      varFinish_mixed _ _ (by rw [iterNames_plist_map]; exact hg)
        (by rw [iterNames_plist_map]; exact hb),
      iterNames_plist_map]
  · intro hg hb
    obtain ⟨p, hp, hpc⟩ := hg
    obtain ⟨q, hq, hqc⟩ := hb
    rw [gvn_pdict,
      varFinish_mixed _ _ ⟨p.1, List.mem_map_of_mem _ hp, hpc⟩
        ⟨q.1, List.mem_map_of_mem _ hq, hqc⟩]
    rfl
  · intro hb
    rw [gvn_plist_str]
    exact varFinish_all_absent _ _ (by rw [iterNames_plist_map]; exact hb)
  · intro hs
    rw [gvn_pstr]
    refine varFinish_all_absent _ _ ?_
    intro x hx
    have : x = s := by simpa [PyVar.iterNames] using hx
    rwa [this]

/-- Witness for C1's amended claim at a concrete mixed request. -/
theorem c1_witness :
    (∃ x ∈ ["x1", "zz"], x ∈ ["x1", "y"]) ∧
    (∃ x ∈ ["x1", "zz"], x ∉ ["x1", "y"]) ∧
    get_variables_names (.plist (["x1", "zz"].map .pystr)) [] ["x1", "y"] =
      (["Variable(s) not in newdata: " ++ String.intercalate ", "
          (["x1", "zz"].filter (fun x => decide (x ∉ ["x1", "y"])))],
        .ok (.plist (["x1", "zz"].map .pystr))) :=
  ⟨by decide, by decide,
    (c1_partial_selection ["x1", "zz"] ["x1", "y"] [] [] "").1 (by decide) (by decide)⟩

/-- C3 counterexample: a mapping whose sole key is a column is returned as the
mapping itself, which is not a list of strings, contradicting the claim that
the mapping is normalized to its key list. -/
theorem c3_counterexample :
    get_variables_names (.pdict [("x1", 100)]) [] ["x1", "y"] =
      ([], .ok (.pdict [("x1", 100)])) ∧
    PyVar.isStringList (.pdict [("x1", 100)]) = false :=
  ⟨rfl, rfl⟩

/-- C3 amended: a mapping whose keys are all present in the input table's
columns is validated over its keys (in insertion order), produces no warning,
and is returned unchanged as the mapping itself — it is never converted to a
list of strings. -/
theorem c3_dict_returned_unchanged (d : List (String × Int)) (cols exog : List String)
    (hall : ∀ p ∈ d, p.1 ∈ cols) (hne : d ≠ []) :
    get_variables_names (.pdict d) exog cols = ([], .ok (.pdict d)) ∧
    PyVar.isStringList (.pdict d) = false := by
  constructor
  · rw [gvn_pdict]
    apply varFinish_all_present
    · intro x hx
      simp only [PyVar.iterNames] at hx
      obtain ⟨p, hp, rfl⟩ := List.mem_map.mp hx
      exact hall p hp
    · simp only [PyVar.iterNames]
      simpa using hne
  · rfl

/-- Witness for C3's amended claim at the test suite's request
`{"Desertion": 100}` shape. -/
theorem c3_witness :
    (∀ p ∈ [("x1", (100 : Int))], p.1 ∈ ["x1", "y"]) ∧
    ([("x1", (100 : Int))] ≠ ([] : List (String × Int))) ∧
    (get_variables_names (.pdict [("x1", 100)]) [] ["x1", "y"] =
        ([], .ok (.pdict [("x1", 100)])) ∧
      PyVar.isStringList (.pdict [("x1", 100)]) = false) :=
  ⟨by decide, by decide,
    c3_dict_returned_unchanged [("x1", 100)] ["x1", "y"] [] (by decide) (by decide)⟩

/-- C4 counterexample: with the default `maintain_order=False`, polars
promises only `uniqueContract` of `Series.unique()` — a duplicate-free result
with the same element set, in no guaranteed order.  The reversed-dedup
function below satisfies that contract, yet under it the requested-absent call
on predictor terms ["x2", "x1"] returns ["x1", "x2"], which is not the
first-seen order ["x2", "x1"] of the stripped predictor terms; so the
order-preservation part of the claim is not ensured by the program. -/
theorem c4_counterexample :
    uniqueContract (fun l => (uniqueKeepFirst l).reverse) ∧
    get_variables_names_with (fun l => (uniqueKeepFirst l).reverse) .pynone
        ["x2", "x1"] ["x1", "x2", "y"] =
      ([], .ok (.plist [.pystr "x1", .pystr "x2"])) ∧
    uniqueKeepFirst ((["x2", "x1"].map subBrackets).filter
        (fun x => decide (x ∈ ["x1", "x2", "y"]))) = ["x2", "x1"] ∧
    (["x1", "x2"] : List String) ≠ ["x2", "x1"] :=
  ⟨uniqueReversed_contract, rfl, by decide, by decide⟩

/-- C4 amended: with `requested` absent, the call emits no warning and
returns the list obtained by stripping bracketed level suffixes from the
model's predictor terms, removing duplicates, and keeping only names that are
columns of the input table: a duplicate-free list holding those names —
exactly that set — in whatever order the tabular library's unique operation
produces (the library guarantees no particular order).  Stated over every
unique operation satisfying the library's contract. -/
theorem c4_infer_from_exog (uniq : List String → List String)
    (hu : uniqueContract uniq) (exog cols : List String)
    (h : ∃ x ∈ exog.map subBrackets, x ∈ cols) :
    ∃ ns : List String,
      get_variables_names_with uniq .pynone exog cols =
        ([], .ok (.plist (ns.map PyItem.pystr))) ∧
      ns.Nodup ∧
      (∀ x : String, x ∈ ns ↔ x ∈ exog.map subBrackets ∧ x ∈ cols) := by
  obtain ⟨w, hw, hwc⟩ := h
  refine ⟨uniq ((exog.map subBrackets).filter (fun x => decide (x ∈ cols))),
    ?_, (hu _).1, ?_⟩
  · rw [gvn_with_pynone]
    apply varFinish_all_present
    · intro x hx
      rw [iterNames_plist_map] at hx
      have hx' := ((hu _).2 x).mp hx
      exact of_decide_eq_true (List.mem_filter.mp hx').2
    · rw [iterNames_plist_map]
      have hwf : w ∈ (exog.map subBrackets).filter (fun x => decide (x ∈ cols)) :=
        List.mem_filter.mpr ⟨hw, by simpa using hwc⟩
      exact List.ne_nil_of_mem (((hu _).2 w).mpr hwf)
  · intro x
    rw [(hu _).2 x, List.mem_filter]
    simp

/-- Witness for C4's amended claim at the spec's scenario, instantiated with
the keep-first resolution of the unique operation (one admissible behaviour,
shown to satisfy the contract): predictor terms ["x1", "x2"] and columns
["x1", "x2", "y"] yield exactly the names x1 and x2. -/
theorem c4_witness :
    uniqueContract uniqueKeepFirst ∧
    (∃ x ∈ ["x1", "x2"].map subBrackets, x ∈ ["x1", "x2", "y"]) ∧
    (∃ ns : List String,
      get_variables_names_with uniqueKeepFirst .pynone ["x1", "x2"]
          ["x1", "x2", "y"] =
        ([], .ok (.plist (ns.map PyItem.pystr))) ∧
      ns.Nodup ∧
      (∀ x : String, x ∈ ns ↔
        x ∈ ["x1", "x2"].map subBrackets ∧ x ∈ ["x1", "x2", "y"])) :=
  ⟨uniqueKeepFirst_contract, by decide,
    c4_infer_from_exog uniqueKeepFirst uniqueKeepFirst_contract ["x1", "x2"]
      ["x1", "x2", "y"] (by decide)⟩

theorem map_getD_range {α : Type _} (L : List α) (d : α) :
    (List.range L.length).map (fun i => L.getD i d) = L := by
  apply List.ext_getElem
  · simp
  · intro i h1 h2
    have hi : i < L.length := by simpa using h1
    simp only [List.getElem_map, List.getElem_range]
    exact List.getD_eq_getElem L d hi

/-- C6: for a rank-1 backend prediction of length n on an input table with n
rows, `get_predict` returns a table of exactly n rows, with `rowid` equal to
0..n-1 in input row order and `estimate` equal to the backend values in the
same order. -/
theorem c6_rank1 (vals : List Rat) (n : Nat) (hlen : vals.length = n)
    (hn : n ≤ 2 ^ 31) :
    ∃ t : PredTable,
      get_predict (.dim1 vals) n = .ok t ∧
      t.rows.length = n ∧
      t.rows.map PredRow.rowid = (List.range n).map Int.ofNat ∧
      t.rows.map PredRow.estimate = vals := by
  subst hlen
  refine ⟨_, get_predict_dim1 vals hn, ?_, ?_, ?_⟩
  · simp
  · rw [List.map_map]
    rfl
  · rw [List.map_map]
    exact map_getD_range vals 0

/-- Witness for C6 at the concrete rank-1 output [5, 7] on a 2-row table. -/
theorem c6_witness :
    (([5, 7] : List Rat).length = 2) ∧ (2 ≤ 2 ^ 31) ∧
    (∃ t : PredTable,
      get_predict (.dim1 ([5, 7] : List Rat)) 2 = .ok t ∧
      t.rows.length = 2 ∧
      t.rows.map PredRow.rowid = (List.range 2).map Int.ofNat ∧
      t.rows.map PredRow.estimate = [5, 7]) :=
  ⟨rfl, by norm_num, c6_rank1 [5, 7] 2 rfl (by norm_num)⟩

/-- C10: the long-form rows produced for a rank-2 prediction are ordered
group-major: one block per group in group order, each block running through
rowid 0..n-1 in input order, with the estimate taken from the corresponding
matrix entry; rows are not interleaved by observation. -/
theorem c10_group_major (ncol : Nat) (rows : List (List Rat)) (nd : Nat)
    (hn : rows.length ≤ 2 ^ 31) :
    ∃ t : PredTable,
      get_predict (.dim2 ncol rows) nd = .ok t ∧
      t.rows = (List.range ncol).flatMap (fun (j : Nat) =>
        (List.range rows.length).map (fun (i : Nat) =>
          ({ rowid := (i : Int), group := some (toString j),
             estimate := entryAt rows i j } : PredRow))) :=
  ⟨_, get_predict_dim2 ncol rows nd hn, rfl⟩

/-- Witness for C10 at the 2-by-2 matrix [[1, 2], [3, 4]]: the melted rows
are the two group-"0" rows first (rowid 0 then 1), then the two group-"1"
rows, matching the group-major order. -/
theorem c10_witness :
    (([[1, 2], [3, 4]] : List (List Rat)).length ≤ 2 ^ 31) ∧
    (∃ t : PredTable,
      get_predict (.dim2 2 ([[1, 2], [3, 4]] : List (List Rat))) 2 = .ok t ∧
      t.rows = (List.range 2).flatMap (fun (j : Nat) =>
        (List.range ([[1, 2], [3, 4]] : List (List Rat)).length).map (fun (i : Nat) =>
          ({ rowid := (i : Int), group := some (toString j),
             estimate := entryAt ([[1, 2], [3, 4]] : List (List Rat)) i j } : PredRow)))) ∧
    (List.range 2).flatMap (fun (j : Nat) =>
        (List.range ([[1, 2], [3, 4]] : List (List Rat)).length).map (fun (i : Nat) =>
          ({ rowid := (i : Int), group := some (toString j),
             estimate := entryAt ([[1, 2], [3, 4]] : List (List Rat)) i j } : PredRow))) =
      [{ rowid := 0, group := some "0", estimate := 1 },
       { rowid := 1, group := some "0", estimate := 3 },
       { rowid := 0, group := some "1", estimate := 2 },
       { rowid := 1, group := some "1", estimate := 4 }] :=
  ⟨by norm_num, c10_group_major 2 [[1, 2], [3, 4]] 2 (by norm_num), by decide⟩

/-- C9: for every successful `get_predict` call the returned `rowid` column
has the 32-bit signed Int32 dtype and enumerates the contiguous 0-based row
range: for rank-1 output of matching length it is exactly 0..n-1 in order;
for rank-2 output every rowid value lies in 0..n-1 and, as soon as there is
at least one category, every index in 0..n-1 occurs. -/
theorem c9_rowid_int32 :
    (∀ (vals : List Rat) (n : Nat), vals.length = n → n ≤ 2 ^ 31 →
      ∃ t : PredTable, get_predict (.dim1 vals) n = .ok t ∧
        t.rowidDtype = .int32 ∧
        t.rows.map PredRow.rowid = (List.range n).map Int.ofNat) ∧
    (∀ (ncol : Nat) (rows : List (List Rat)) (nd : Nat), 0 < ncol →
      rows.length ≤ 2 ^ 31 →
      ∃ t : PredTable, get_predict (.dim2 ncol rows) nd = .ok t ∧
        t.rowidDtype = .int32 ∧
        (∀ r ∈ t.rows, ∃ i : Nat, i < rows.length ∧ r.rowid = (i : Int)) ∧
        (∀ i : Nat, i < rows.length → (i : Int) ∈ t.rows.map PredRow.rowid)) := by
  constructor
  · intro vals n hlen hn
    subst hlen
    refine ⟨_, get_predict_dim1 vals hn, rfl, ?_⟩
    rw [List.map_map]
    rfl
  · intro ncol rows nd hk hn
    refine ⟨_, get_predict_dim2 ncol rows nd hn, rfl, ?_, ?_⟩
    · intro r hr
      simp only [List.mem_flatMap, List.mem_map, List.mem_range] at hr
      obtain ⟨j, hj, i, hi, rfl⟩ := hr
      exact ⟨i, hi, rfl⟩
    · intro i hi
      refine List.mem_map.mpr
        ⟨{ rowid := (i : Int), group := some (toString 0),
           estimate := entryAt rows i 0 }, ?_, rfl⟩
      simp only [List.mem_flatMap]
      exact ⟨0, List.mem_range.mpr hk,
        List.mem_map.mpr ⟨i, List.mem_range.mpr hi, rfl⟩⟩

/-- Witness for C9 at a concrete rank-1 and a concrete rank-2 output. -/
theorem c9_witness :
    (([5, 7] : List Rat).length = 2 ∧ 2 ≤ 2 ^ 31 ∧
      (∃ t : PredTable, get_predict (.dim1 ([5, 7] : List Rat)) 2 = .ok t ∧
        t.rowidDtype = .int32 ∧
        t.rows.map PredRow.rowid = (List.range 2).map Int.ofNat)) ∧
    (0 < 2 ∧ ([[1, 2], [3, 4]] : List (List Rat)).length ≤ 2 ^ 31 ∧
      (∃ t : PredTable,
        get_predict (.dim2 2 ([[1, 2], [3, 4]] : List (List Rat))) 2 = .ok t ∧
        t.rowidDtype = .int32 ∧
        (∀ r ∈ t.rows, ∃ i : Nat,
          i < ([[1, 2], [3, 4]] : List (List Rat)).length ∧ r.rowid = (i : Int)) ∧
        (∀ i : Nat, i < ([[1, 2], [3, 4]] : List (List Rat)).length →
          (i : Int) ∈ t.rows.map PredRow.rowid))) :=
  ⟨⟨rfl, by norm_num, c9_rowid_int32.1 [5, 7] 2 rfl (by norm_num)⟩,
    ⟨by norm_num, by norm_num,
      c9_rowid_int32.2 2 [[1, 2], [3, 4]] 2 (by norm_num) (by norm_num)⟩⟩

theorem range_filter_eq (n i : Nat) (hi : i < n) :
    (List.range n).filter (fun x => decide (x = i)) = [i] := by
  induction n with
  | zero => exact absurd hi (by omega)
  | succ n ih =>
    rw [List.range_succ, List.filter_append]
    by_cases h : i < n
    · rw [ih h, List.filter_cons_of_neg (by simp; omega), List.filter_nil,
        List.append_nil]
    · have hin : i = n := by omega
      subst hin
      have h1 : List.filter (fun x => decide (x = i)) (List.range i) = [] := by
        rw [List.filter_eq_nil_iff]
        intro a ha
        simp only [decide_eq_true_eq]
        have := List.mem_range.mp ha
        omega
      rw [h1, List.nil_append]
      simp

theorem flatMap_range_eq_singleton {α : Type _} (k j : Nat) (hj : j < k) (x : α)
    (g : Nat → List α) (hg : ∀ j', g j' = if j' = j then [x] else []) :
    (List.range k).flatMap g = [x] := by
  induction k with
  | zero => exact absurd hj (by omega)
  | succ k ih =>
    rw [List.range_succ, List.flatMap_append]
    by_cases h : j < k
    · rw [ih h]
      have hlast : ([k] : List Nat).flatMap g = [] := by
        simp only [List.flatMap_cons, List.flatMap_nil, List.append_nil]
        rw [hg k, if_neg (by omega)]
      rw [hlast, List.append_nil]
    · have hjk : j = k := by omega
      subst hjk
      have h1 : (List.range j).flatMap g = [] := by
        rw [List.flatMap_eq_nil_iff]
        intro a ha
        rw [hg a, if_neg (by have := List.mem_range.mp ha; omega)]
      rw [h1, List.nil_append]
      simp only [List.flatMap_cons, List.flatMap_nil, List.append_nil]
      rw [hg j, if_pos rfl]

/-- C5: a rank-2 prediction of shape n-by-k with n ≥ 1 input rows melts to a
long-form table with exactly n·k rows; the group column takes exactly k
distinct values, namely the stringified column indices "0".."k-1"; the rowid
column holds the 0-based input row index; and each (rowid, group) pair occurs
in exactly one row, whose estimate is the corresponding matrix entry. -/
theorem c5_rank2_long_form (ncol : Nat) (rows : List (List Rat)) (nd : Nat)
    (hrect : ∀ r ∈ rows, r.length = ncol) (hpos : 0 < rows.length)
    (hn : rows.length ≤ 2 ^ 31) :
    ∃ t : PredTable,
      get_predict (.dim2 ncol rows) nd = .ok t ∧
      t.rows.length = rows.length * ncol ∧
      (t.rows.map PredRow.group).toFinset =
        ((List.range ncol).map (fun (j : Nat) => some (toString j))).toFinset ∧
      (t.rows.map PredRow.group).toFinset.card = ncol ∧
      (∀ r ∈ t.rows, 0 ≤ r.rowid ∧ r.rowid < rows.length) ∧
      (∀ i < rows.length, ∀ j < ncol,
        t.rows.filter (fun r =>
            decide (r.rowid = (i : Int) ∧ r.group = some (toString j))) =
          [{ rowid := (i : Int), group := some (toString j),
             estimate := entryAt rows i j }]) := by
  have hmap : List.map PredRow.group ((List.range ncol).flatMap (fun (j : Nat) =>
      (List.range rows.length).map (fun (i : Nat) =>
        ({ rowid := (i : Int), group := some (toString j),
           estimate := entryAt rows i j } : PredRow)))) =
      (List.range ncol).flatMap (fun (j : Nat) =>
        List.replicate rows.length (some (toString j))) := by
    rw [List.map_flatMap]
    refine congrArg (fun F => (List.range ncol).flatMap F) (funext fun j => ?_)
    rw [List.map_map]
    show List.map (fun _ => some (toString j)) (List.range rows.length) = _
    rw [List.map_const', List.length_range]
  have hset : (List.map PredRow.group ((List.range ncol).flatMap (fun (j : Nat) =>
      (List.range rows.length).map (fun (i : Nat) =>
        ({ rowid := (i : Int), group := some (toString j),
           estimate := entryAt rows i j } : PredRow))))).toFinset =
      ((List.range ncol).map (fun (j : Nat) => some (toString j))).toFinset := by
    rw [hmap]
    apply Finset.ext
    intro a
    simp only [List.mem_toFinset, List.mem_flatMap, List.mem_replicate, List.mem_map,
      List.mem_range]
    constructor
    · rintro ⟨j, hj, -, rfl⟩
      exact ⟨j, hj, rfl⟩
    · rintro ⟨j, hj, rfl⟩
      exact ⟨j, hj, by omega, rfl⟩
  have hnodup : ((List.range ncol).map (fun (j : Nat) => some (toString j))).Nodup :=
    List.Nodup.map (fun a b hab => natToString_injective (Option.some.inj hab))
      (List.nodup_range ncol)
  refine ⟨_, get_predict_dim2 ncol rows nd hn, ?_, ?_, ?_, ?_, ?_⟩
  · dsimp only
    rw [List.length_flatMap,
      List.map_congr_left (g := fun _ => rows.length) (fun j _ => by
        simp [Function.comp]),
      List.map_const', List.length_range, List.sum_replicate, smul_eq_mul,
      Nat.mul_comm]
  · exact hset
  · have hcard := congrArg Finset.card hset
    rw [List.toFinset_card_of_nodup hnodup, List.length_map, List.length_range] at hcard
    exact hcard
  · intro r hr
    simp only [List.mem_flatMap, List.mem_map, List.mem_range] at hr
    obtain ⟨j, hj, i, hi, rfl⟩ := hr
    constructor
    · exact Int.ofNat_nonneg i
    · show (i : Int) < (rows.length : Int)
      exact_mod_cast hi
  · intro i hi j hj
    dsimp only
    rw [List.filter_flatMap]
    have hg : ∀ j' : Nat,
        List.filter (fun r => decide (r.rowid = (i : Int) ∧
            r.group = some (toString j)))
          ((List.range rows.length).map (fun (i' : Nat) =>
            ({ rowid := (i' : Int), group := some (toString j'),
               estimate := entryAt rows i' j' } : PredRow))) =
          (if j' = j then
            [{ rowid := (i : Int), group := some (toString j),
               estimate := entryAt rows i j }] else []) := by
      intro j'
      rw [List.filter_map]
      by_cases hjj : j' = j
      · subst hjj
        rw [if_pos rfl]
        have hcong : List.filter ((fun r => decide (r.rowid = (i : Int) ∧
              r.group = some (toString j'))) ∘ (fun (i' : Nat) =>
              ({ rowid := (i' : Int), group := some (toString j'),
                 estimate := entryAt rows i' j' } : PredRow)))
              (List.range rows.length) =
            List.filter (fun x => decide (x = i)) (List.range rows.length) :=
          List.filter_congr (fun a _ => by
            simp only [Function.comp_apply, decide_eq_decide]
            constructor
            · rintro ⟨h1, -⟩
              exact_mod_cast h1
            · rintro rfl
              exact ⟨rfl, trivial⟩)
        rw [hcong, range_filter_eq rows.length i hi]
        rfl
      · rw [if_neg hjj]
        have hnil : List.filter ((fun r => decide (r.rowid = (i : Int) ∧
              r.group = some (toString j))) ∘ (fun (i' : Nat) =>
              ({ rowid := (i' : Int), group := some (toString j'),
                 estimate := entryAt rows i' j' } : PredRow)))
              (List.range rows.length) = [] := by
          rw [List.filter_eq_nil_iff]
          intro a ha
          simp only [Function.comp_apply, decide_eq_true_eq]
          rintro ⟨-, h2⟩
          exact hjj (natToString_injective (Option.some.inj h2))
        rw [hnil]
        rfl
    exact flatMap_range_eq_singleton ncol j hj _ _ hg

/-- Witness for C5 at the 2-by-3 matrix [[1, 2, 3], [4, 5, 6]]. -/
theorem c5_witness :
    (∀ r ∈ ([[1, 2, 3], [4, 5, 6]] : List (List Rat)), r.length = 3) ∧
    (0 < ([[1, 2, 3], [4, 5, 6]] : List (List Rat)).length) ∧
    (([[1, 2, 3], [4, 5, 6]] : List (List Rat)).length ≤ 2 ^ 31) ∧
    (∃ t : PredTable,
      get_predict (.dim2 3 ([[1, 2, 3], [4, 5, 6]] : List (List Rat))) 2 = .ok t ∧
      t.rows.length = ([[1, 2, 3], [4, 5, 6]] : List (List Rat)).length * 3 ∧
      (t.rows.map PredRow.group).toFinset =
        ((List.range 3).map (fun (j : Nat) => some (toString j))).toFinset ∧
      (t.rows.map PredRow.group).toFinset.card = 3 ∧
      (∀ r ∈ t.rows, 0 ≤ r.rowid ∧
        r.rowid < ([[1, 2, 3], [4, 5, 6]] : List (List Rat)).length) ∧
      (∀ i < ([[1, 2, 3], [4, 5, 6]] : List (List Rat)).length, ∀ j < 3,
        t.rows.filter (fun r =>
            decide (r.rowid = (i : Int) ∧ r.group = some (toString j))) =
          [{ rowid := (i : Int), group := some (toString j),
             estimate := entryAt ([[1, 2, 3], [4, 5, 6]] : List (List Rat)) i j }])) :=
  ⟨by decide, by norm_num, by norm_num,
    c5_rank2_long_form 3 [[1, 2, 3], [4, 5, 6]] 2 (by decide) (by norm_num) (by norm_num)⟩
